import Mathlib

/-!
Shallow embedding of the Lequel trigram-based language identifier
(`src/Lequel.cpp`) and proofs of the behavioural claims about it.

Modelling conventions:
- `std::map<std::string, float>` (a `TrigramProfile`) is modelled as an
  association list `List (String × ℝ)` kept sorted by key, mirroring the
  ordered-map invariant; `float` arithmetic is modelled by exact reals.
- A `Text` (`std::list<std::string>`) is a list of lines; the UTF-8 → wide
  string decoding `converter.from_bytes` is modelled by `String.data`,
  the line's sequence of Unicode code points, and the re-encoding
  `converter.to_bytes` of a 3-code-point window by `String.mk`.
- The `std::cout` dump of the accumulated profile inside
  `buildTrigramProfile` has no effect on any returned value and is not
  modelled.
-/

namespace Lequel

/-- A text is an ordered sequence of lines (`Text` = `std::list<std::string>`
from the header, modelled from the spec's data model: lines of encoded text). -/
abbrev Text := List String

/-- `TrigramProfile` = `std::map<std::string, float>`: a key-sorted
association list from trigram keys to real-valued weights (modelled from the
spec's data model: sparse mapping from trigram to weight, keys unique). -/
abbrev TrigramProfile := List (String × ℝ)

/-- A catalog entry: a language code paired with its trigram profile
(modelled from the spec's data model for `LanguageProfile`). -/
structure LanguageProfile where
  languageCode : String
  trigramProfile : TrigramProfile

/-- `LanguageProfiles`: the ordered catalog of language profiles. -/
abbrev LanguageProfiles := List LanguageProfile

/-- `std::map::find`: the value stored at key `key`, if present. -/
def mapFind? : TrigramProfile → String → Option ℝ
  | [], _ => none
  | (k, v) :: rest, key => if key = k then some v else mapFind? rest key

/-- `trigProfReturn[tri] += 1.0f`: `operator[]` default-inserts `0.0` for an
absent key (at its sorted position, as `std::map` does) and then `+= 1.0`
bumps the stored value. -/
noncomputable def mapIncr : TrigramProfile → String → TrigramProfile
  | [], key => [(key, 1)]
  | (k, v) :: rest, key =>
    if key = k then (k, v + 1) :: rest
    else if key < k then (key, 1) :: (k, v) :: rest
    else (k, v) :: mapIncr rest key

/-- `if (!line.empty() && line.back() == '\r') line.pop_back();` — prune a
single trailing carriage return (CRLF files). A trailing byte `0x0D` is
exactly a trailing code point `'\r'`, since UTF-8 continuation bytes are
`≥ 0x80`. -/
def stripCR (line : String) : String :=
  if line ≠ "" ∧ line.back = '\r' then line.dropRight 1 else line

/-- The inner window loop: `for (i = 0; i + 2 < wline.size(); ++i)` takes the
3-code-point substring at every position `i`, re-encoded as the key
`String.mk [a, b, c]`. -/
def lineTrigrams : List Char → List String
  | a :: b :: c :: rest => String.mk [a, b, c] :: lineTrigrams (b :: c :: rest)
  | _ => []

/-- One iteration of the line loop of `buildTrigramProfile`: prune the CR,
skip the line if it is empty or decodes to fewer than 3 code points,
otherwise accumulate every window into the profile. -/
noncomputable def processLine (prof : TrigramProfile) (line : String) : TrigramProfile :=
  let l := stripCR line
  if l = "" then prof
  else if l.data.length < 3 then prof
  else (lineTrigrams l.data).foldl mapIncr prof

/-- `buildTrigramProfile`: fold the line loop over the text, starting from
the empty accumulator `trigProfReturn`. (The dead local arrays `max`/`max_len`
and the commented-out block have no effect and are not modelled.) -/
noncomputable def buildTrigramProfile (text : Text) : TrigramProfile :=
  text.foldl processLine []

/-- The first loop of `normalizeTrigramProfile`: `norma += adder * adder`
accumulated over all stored weights (before the square root). -/
noncomputable def sumSquares (p : TrigramProfile) : ℝ :=
  (p.map (fun kv => kv.2 * kv.2)).sum

/-- `norma = std::sqrtf(norma)`: the Euclidean norm of the profile. -/
noncomputable def profileNorm (p : TrigramProfile) : ℝ :=
  Real.sqrt (sumSquares p)

/-- `normalizeTrigramProfile`: divide every stored weight by the norm,
in place. (Real division is total; the zero-norm case, which in C++ would
produce a non-finite float, is shown unreachable from `identifyLanguage`.) -/
noncomputable def normalizeTrigramProfile (p : TrigramProfile) : TrigramProfile :=
  p.map (fun kv => (kv.1, kv.2 / profileNorm p))

/-- The loop body of `getCosineSimilarity`: look the text trigram up in the
language profile and, when found, accumulate `langIt->second * textIt.second`
into `result`. -/
noncomputable def cosStep (languageProfile : TrigramProfile) (result : ℝ)
    (kv : String × ℝ) : ℝ :=
  match mapFind? languageProfile kv.1 with
  | some w => result + w * kv.2
  | none => result

/-- `getCosineSimilarity`: iterate the text profile, accumulating `cosStep`
from `result = 0`. -/
noncomputable def getCosineSimilarity (textProfile languageProfile : TrigramProfile) : ℝ :=
  textProfile.foldl (cosStep languageProfile) 0

/-- The catalog scan of `identifyLanguage`: entries with an empty profile are
skipped, and the running maximum / best code pair is updated only on a
strictly greater similarity. -/
noncomputable def scanLanguages (ref : TrigramProfile) :
    LanguageProfiles → ℝ → String → String
  | [], _, best => best
  | lan :: rest, m, best =>
    if lan.trigramProfile = [] then scanLanguages ref rest m best
    else
      if getCosineSimilarity ref lan.trigramProfile > m then
        scanLanguages ref rest (getCosineSimilarity ref lan.trigramProfile) lan.languageCode
      else scanLanguages ref rest m best

open Classical

/-- `identifyLanguage`: build the text's profile, return `""` if it or the
catalog is empty, otherwise normalize it and scan the catalog starting from
`max = 0.0` and the default-constructed (empty) best code. -/
noncomputable def identifyLanguage (text : Text) (languages : LanguageProfiles) : String :=
  if buildTrigramProfile text = [] ∨ languages = [] then ""
  else scanLanguages (normalizeTrigramProfile (buildTrigramProfile text)) languages 0 ""

/-- The accumulator loop of `hasLessThanNChars`: add each line's byte size
(`std::string::size`) and bail out with `false` as soon as the running total
reaches `3`. -/
def hasLessThanNCharsGo : Nat → Text → Bool
  | _, [] => true
  | total, s :: rest =>
    if total + s.utf8ByteSize ≥ 3 then false
    else hasLessThanNCharsGo (total + s.utf8ByteSize) rest

/-- `hasLessThanNChars(Text&, int n)`: note the parameter `n` is never read;
the comparison is against the literal `3`, and `s.size()` counts bytes. -/
def hasLessThanNChars (text : Text) (_n : Int) : Bool :=
  hasLessThanNCharsGo 0 text

/-- The trigram key sequence contributed by one line of the text: empty when
the CR-stripped line is empty or shorter than 3 code points, otherwise the
sliding windows of `lineTrigrams`. -/
def lineTrigramList (line : String) : List String :=
  if stripCR line = "" then []
  else if (stripCR line).data.length < 3 then []
  else lineTrigrams (stripCR line).data

/-- All trigram keys of a text, line by line. -/
def textTrigrams : Text → List String
  | [] => []
  | line :: rest => lineTrigramList line ++ textTrigrams rest

/-- The stored value of a key after `n` further `+= 1.0` bumps: absent keys
stay absent only when `n = 0`. -/
noncomputable def optCount : Option ℝ → Nat → Option ℝ
  | none, 0 => none
  | none, n + 1 => some ((n : ℝ) + 1)
  | some v, n => some (v + (n : ℝ))

/-- The key set of a profile, as a finite set of trigram keys. -/
def profKeys (p : TrigramProfile) : Finset String :=
  (p.map Prod.fst).toFinset

/-- The weight a profile assigns to a trigram key (`0` when absent). -/
noncomputable def profWeight (p : TrigramProfile) (t : String) : ℝ :=
  (mapFind? p t).getD 0

/-- Modelled from the spec (§4.4 step 4): the maximum similarity attained by
any catalog entry with a nonempty profile, `0` when there is none. Used to
compare the source's scan loop with the spec's description of its result. -/
noncomputable def maxSimilarity (ref : TrigramProfile) : LanguageProfiles → ℝ
  | [] => 0
  | lan :: rest =>
    if lan.trigramProfile = [] then maxSimilarity ref rest
    else max (getCosineSimilarity ref lan.trigramProfile) (maxSimilarity ref rest)

/-- Modelled from the spec (tie-break law): the language code of the first
catalog entry, in catalog order, whose profile is nonempty and whose
similarity equals `m`. -/
noncomputable def firstMaxLanguage (ref : TrigramProfile) (m : ℝ) : LanguageProfiles → String
  | [] => ""
  | lan :: rest =>
    if lan.trigramProfile ≠ [] ∧ getCosineSimilarity ref lan.trigramProfile = m then
      lan.languageCode
    else firstMaxLanguage ref m rest

/-- The UTF-16 code units of one code point, as produced by
`codecvt_utf8_utf16`: a basic-plane code point is one unit, a supplementary
code point becomes a surrogate pair. -/
def utf16Encode (c : Char) : List Nat :=
  if c.toNat < 0x10000 then [c.toNat]
  else [0xD800 + (c.toNat - 0x10000) / 0x400, 0xDC00 + (c.toNat - 0x10000) % 0x400]

/-- `converter.from_bytes(line)`: the wide string `wline` as its sequence of
UTF-16 code units (`codecvt_utf8_utf16` always converts to UTF-16 code units,
whatever the width of `wchar_t`), so `wline.size()` counts units. -/
def strUtf16 : List Char → List Nat
  | [] => []
  | c :: cs => utf16Encode c ++ strUtf16 cs

/-- The window loop over `wline`: `wline.substr(i, 3)` for every `i` with
`i + 2 < wline.size()`, each window being 3 UTF-16 code units. -/
def unitWindows : List Nat → List (List Nat)
  | a :: b :: c :: rest => [a, b, c] :: unitWindows (b :: c :: rest)
  | _ => []

/-- Decoding a UTF-16 code-unit sequence back to code points, failing (like
`converter.to_bytes`, which throws `std::range_error`) when the sequence
contains a lone surrogate. -/
def utf16Decode? : List Nat → Option (List Char)
  | [] => some []
  | [u] =>
    if u < 0xD800 ∨ 0xE000 ≤ u then some [Char.ofNat u] else none
  | u :: v :: rest =>
    if u < 0xD800 ∨ 0xE000 ≤ u then
      match utf16Decode? (v :: rest) with
      | some cs => some (Char.ofNat u :: cs)
      | none => none
    else if u < 0xDC00 ∧ 0xDC00 ≤ v ∧ v < 0xE000 then
      match utf16Decode? rest with
      | some cs => some (Char.ofNat (0x10000 + (u - 0xD800) * 0x400 + (v - 0xDC00)) :: cs)
      | none => none
    else none

/-- `converter.to_bytes(wtri)`: the UTF-8 key for a window, or `none` when the
window is invalid UTF-16 and the converter throws. -/
def toBytes? (w : List Nat) : Option String :=
  (utf16Decode? w).map String.mk

/-- The accumulation of the window loop: each successfully re-encoded window
bumps its key via `operator[] += 1.0f`; a failing window aborts the whole
call with the exception. -/
noncomputable def foldWindows : TrigramProfile → List (List Nat) → Option TrigramProfile
  | prof, [] => some prof
  | prof, w :: ws =>
    match toBytes? w with
    | some tri => foldWindows (mapIncr prof tri) ws
    | none => none

/-- One iteration of the line loop of `buildTrigramProfile` under the UTF-16
code-unit decode of `codecvt_utf8_utf16`: prune the CR, skip the line if it
is empty or yields fewer than 3 code units, otherwise accumulate every
3-unit window; `none` models the `std::range_error` escaping the call. -/
noncomputable def processLineUtf16 (prof : TrigramProfile) (line : String) :
    Option TrigramProfile :=
  let l := stripCR line
  if l = "" then some prof
  else
    if (strUtf16 l.data).length < 3 then some prof
    else foldWindows prof (unitWindows (strUtf16 l.data))

/-- The line fold of `buildTrigramProfile` with exception propagation. -/
noncomputable def buildGoUtf16 : TrigramProfile → Text → Option TrigramProfile
  | prof, [] => some prof
  | prof, line :: rest =>
    match processLineUtf16 prof line with
    | some p2 => buildGoUtf16 p2 rest
    | none => none

/-- `buildTrigramProfile` under the faithful UTF-16 code-unit model of the
`codecvt_utf8_utf16` decode: `none` models the call raising
`std::range_error` (a window split a surrogate pair); `processLine` /
`buildTrigramProfile` above are the code-point abstraction of the same
source, exact for texts confined to the basic multilingual plane (see
`bmp_buildTrigramProfile`). -/
noncomputable def buildTrigramProfileUtf16 (text : Text) : Option TrigramProfile :=
  buildGoUtf16 [] text

/-- `identifyLanguage` over the UTF-16 model: the profile is built before the
catalog guard, so an extraction exception escapes `identifyLanguage` (result
`none`) even when the catalog is empty. -/
noncomputable def identifyLanguageUtf16 (text : Text) (languages : LanguageProfiles) :
    Option String :=
  match buildTrigramProfileUtf16 text with
  | none => none
  | some prof =>
    if prof = [] ∨ languages = [] then some ""
    else some (scanLanguages (normalizeTrigramProfile prof) languages 0 "")

/-- The trigram keys contributed by one line in the UTF-16 model (meaningful
when extraction does not throw: then every window decodes and `filterMap`
drops nothing). -/
def lineKeysUtf16 (line : String) : List String :=
  if stripCR line = "" then []
  else if (strUtf16 (stripCR line).data).length < 3 then []
  else (unitWindows (strUtf16 (stripCR line).data)).filterMap toBytes?

/-- All trigram keys of a text in the UTF-16 model, line by line. -/
def textKeysUtf16 : Text → List String
  | [] => []
  | line :: rest => lineKeysUtf16 line ++ textKeysUtf16 rest

/-- The `std::map` representation invariant: keys strictly increasing. -/
def ProfSorted (p : TrigramProfile) : Prop :=
  p.Pairwise (fun a b => a.1 < b.1)

lemma profSorted_nil : ProfSorted [] :=
  List.Pairwise.nil

lemma profSorted_cons_iff {kv : String × ℝ} {rest : TrigramProfile} :
    ProfSorted (kv :: rest) ↔ (∀ b ∈ rest, kv.1 < b.1) ∧ ProfSorted rest :=
  List.pairwise_cons

lemma mapFind?_eq_none_iff (p : TrigramProfile) (k : String) :
    mapFind? p k = none ↔ k ∉ p.map Prod.fst := by
  induction p with
  | nil => simp [mapFind?]
  | cons kv rest ih =>
    by_cases h : k = kv.1
    · simp [mapFind?, h]
    · simp [mapFind?, h, ih]

lemma mapFind?_head (k : String) (v : ℝ) (rest : TrigramProfile) :
    mapFind? ((k, v) :: rest) k = some v := by
  simp [mapFind?]

lemma mapIncr_ne_nil (p : TrigramProfile) (key : String) : mapIncr p key ≠ [] := by
  cases p with
  | nil => simp [mapIncr]
  | cons kv rest =>
    rcases kv with ⟨k, v⟩
    by_cases h1 : key = k
    · simp [mapIncr, h1]
    · by_cases h2 : key < k <;> simp [mapIncr, h1, h2]

lemma mapIncr_fst_mem (p : TrigramProfile) (key : String) :
    ∀ k ∈ (mapIncr p key).map Prod.fst, k ∈ p.map Prod.fst ∨ k = key := by
  induction p with
  | nil => simp [mapIncr]
  | cons kv rest ih =>
    rcases kv with ⟨k0, v0⟩
    by_cases h1 : key = k0
    · simp [mapIncr, h1]
      tauto
    · by_cases h2 : key < k0
      · simp [mapIncr, h1, h2]
        tauto
      · simp only [mapIncr, if_neg h1, if_neg h2, List.map_cons, List.mem_cons]
        rintro k (rfl | hk)
        · exact Or.inl (by simp)
        · rcases ih k hk with h | h
          · exact Or.inl (by simp [h])
          · exact Or.inr h

lemma mapIncr_one_le {p : TrigramProfile} (hp : ∀ kv ∈ p, (1 : ℝ) ≤ kv.2)
    (key : String) : ∀ kv ∈ mapIncr p key, (1 : ℝ) ≤ kv.2 := by
  induction p with
  | nil =>
    simp [mapIncr]
  | cons kv0 rest ih =>
    rcases kv0 with ⟨k0, v0⟩
    have hv0 : (1 : ℝ) ≤ v0 := hp (k0, v0) (by simp)
    have hrest : ∀ kv ∈ rest, (1 : ℝ) ≤ kv.2 := fun kv h => hp kv (by simp [h])
    by_cases h1 : key = k0
    · simp only [mapIncr, if_pos h1, List.mem_cons]
      rintro kv (rfl | hkv)
      · simpa using by linarith
      · exact hrest kv hkv
    · by_cases h2 : key < k0
      · simp only [mapIncr, if_neg h1, if_pos h2, List.mem_cons]
        rintro kv (rfl | rfl | hkv)
        · simp
        · simpa using hv0
        · exact hrest kv hkv
      · simp only [mapIncr, if_neg h1, if_neg h2, List.mem_cons]
        rintro kv (rfl | hkv)
        · simpa using hv0
        · exact ih hrest kv hkv

lemma mapIncr_sorted {p : TrigramProfile} (hp : ProfSorted p) (key : String) :
    ProfSorted (mapIncr p key) := by
  induction p with
  | nil =>
    simp [mapIncr, ProfSorted]
  | cons kv0 rest ih =>
    rcases kv0 with ⟨k0, v0⟩
    rw [profSorted_cons_iff] at hp
    obtain ⟨hhead, hrest⟩ := hp
    by_cases h1 : key = k0
    · rw [mapIncr, if_pos h1, profSorted_cons_iff]
      exact ⟨hhead, hrest⟩
    · by_cases h2 : key < k0
      · rw [mapIncr, if_neg h1, if_pos h2, profSorted_cons_iff, profSorted_cons_iff]
        refine ⟨?_, hhead, hrest⟩
        intro b hb
        rcases List.mem_cons.mp hb with rfl | hb2
        · exact h2
        · exact lt_trans h2 (hhead b hb2)
      · have h3 : k0 < key := by
          rcases lt_trichotomy key k0 with h | h | h
          · exact absurd h h2
          · exact absurd h h1
          · exact h
        rw [mapIncr, if_neg h1, if_neg h2, profSorted_cons_iff]
        refine ⟨?_, ih hrest⟩
        intro b hb
        rcases mapIncr_fst_mem rest key b.1 (List.mem_map_of_mem Prod.fst hb) with h | h
        · obtain ⟨c, hc, hcb⟩ := List.mem_map.mp h
          exact hcb ▸ hhead c hc
        · exact h ▸ h3

lemma mapFind?_mapIncr_self {p : TrigramProfile} (hp : ProfSorted p) (key : String) :
    mapFind? (mapIncr p key) key = some ((mapFind? p key).getD 0 + 1) := by
  induction p with
  | nil =>
    simp [mapIncr, mapFind?]
  | cons kv0 rest ih =>
    rcases kv0 with ⟨k0, v0⟩
    rw [profSorted_cons_iff] at hp
    obtain ⟨hhead, hrest⟩ := hp
    by_cases h1 : key = k0
    · subst h1
      simp [mapIncr, mapFind?]
    · by_cases h2 : key < k0
      · have habs : key ∉ rest.map Prod.fst := by
          intro hmem
          obtain ⟨c, hc, hck⟩ := List.mem_map.mp hmem
          exact absurd (hck ▸ hhead c hc) (lt_asymm h2)
        have hnone : mapFind? ((k0, v0) :: rest) key = none := by
          rw [mapFind?, if_neg h1, (mapFind?_eq_none_iff rest key).mpr habs]
        rw [mapIncr, if_neg h1, if_pos h2, mapFind?, if_pos rfl, hnone]
        norm_num
      · rw [mapIncr, if_neg h1, if_neg h2, mapFind?, if_neg h1, mapFind?, if_neg h1]
        exact ih hrest

lemma mapFind?_mapIncr_ne (p : TrigramProfile) {key k : String} (h : k ≠ key) :
    mapFind? (mapIncr p key) k = mapFind? p k := by
  induction p with
  | nil =>
    simp [mapIncr, mapFind?, h]
  | cons kv0 rest ih =>
    rcases kv0 with ⟨k0, v0⟩
    by_cases h1 : key = k0
    · subst h1
      rw [mapIncr, if_pos rfl, mapFind?, mapFind?, if_neg h, if_neg h]
    · by_cases h2 : key < k0
      · rw [mapIncr, if_neg h1, if_pos h2, mapFind?, if_neg h]
      · by_cases h3 : k = k0
        · rw [mapIncr, if_neg h1, if_neg h2, mapFind?, mapFind?, if_pos h3, if_pos h3]
        · rw [mapIncr, if_neg h1, if_neg h2, mapFind?, mapFind?, if_neg h3, if_neg h3, ih]

lemma foldl_mapIncr_find : ∀ (ts : List String) {p : TrigramProfile} (k : String),
    ProfSorted p → mapFind? (ts.foldl mapIncr p) k = optCount (mapFind? p k) (ts.count k)
  | [], p, k, _ => by
    rcases h : mapFind? p k with _ | v <;> simp [optCount, h]
  | t :: ts, p, k, hp => by
    rw [List.foldl_cons, foldl_mapIncr_find ts k (mapIncr_sorted hp t)]
    by_cases hkt : k = t
    · subst hkt
      rw [mapFind?_mapIncr_self hp, List.count_cons_self]
      rcases h : mapFind? p k with _ | v
      · rcases hc : ts.count k with _ | c
        · simp [h, optCount, hc]
        · simp only [h, optCount, hc]
          norm_num
          ring
      · simp only [h, optCount]
        norm_num
        ring
    · rw [mapFind?_mapIncr_ne p hkt, List.count_cons_of_ne]
      exact fun hh => hkt (by simpa using hh)

lemma foldl_mapIncr_one_le : ∀ (ts : List String) {p : TrigramProfile},
    (∀ kv ∈ p, (1 : ℝ) ≤ kv.2) → ∀ kv ∈ ts.foldl mapIncr p, (1 : ℝ) ≤ kv.2
  | [], _, hp => hp
  | t :: ts, _, hp => by
    rw [List.foldl_cons]
    exact foldl_mapIncr_one_le ts (mapIncr_one_le hp t)

lemma foldl_mapIncr_fst_mem : ∀ (ts : List String) (p : TrigramProfile),
    ∀ k ∈ (ts.foldl mapIncr p).map Prod.fst, k ∈ p.map Prod.fst ∨ k ∈ ts
  | [], _, k, hk => Or.inl hk
  | t :: ts, p, k, hk => by
    rw [List.foldl_cons] at hk
    rcases foldl_mapIncr_fst_mem ts (mapIncr p t) k hk with h | h
    · rcases mapIncr_fst_mem p t k h with h | h
      · exact Or.inl h
      · exact Or.inr (by simp [h])
    · exact Or.inr (by simp [h])

lemma lineTrigrams_short {cs : List Char} (h : cs.length < 3) : lineTrigrams cs = [] := by
  cases cs with
  | nil => rfl
  | cons a t =>
    cases t with
    | nil => rfl
    | cons b t2 =>
      cases t2 with
      | nil => rfl
      | cons c t3 =>
        simp only [List.length_cons] at h
        omega

lemma processLine_eq (prof : TrigramProfile) (line : String) :
    processLine prof line = (lineTrigramList line).foldl mapIncr prof := by
  simp only [processLine, lineTrigramList]
  split
  · simp
  · split
    · simp
    · rfl

lemma foldl_processLine_eq : ∀ (text : Text) (prof : TrigramProfile),
    text.foldl processLine prof = (textTrigrams text).foldl mapIncr prof
  | [], _ => rfl
  | line :: rest, prof => by
    rw [List.foldl_cons, foldl_processLine_eq rest, textTrigrams, List.foldl_append,
      processLine_eq]

lemma buildTrigramProfile_eq (text : Text) :
    buildTrigramProfile text = (textTrigrams text).foldl mapIncr [] :=
  foldl_processLine_eq text []

lemma buildTrigramProfile_one_le (text : Text) :
    ∀ kv ∈ buildTrigramProfile text, (1 : ℝ) ≤ kv.2 := by
  rw [buildTrigramProfile_eq]
  exact foldl_mapIncr_one_le _ (by simp)

lemma mem_profKeys {p : TrigramProfile} {t : String} :
    t ∈ profKeys p ↔ t ∈ p.map Prod.fst := by
  simp [profKeys]

lemma profWeight_head (k : String) (v : ℝ) (p : TrigramProfile) :
    profWeight ((k, v) :: p) k = v := by
  simp [profWeight, mapFind?]

lemma profWeight_cons_ne {k t : String} (h : t ≠ k) (v : ℝ) (p : TrigramProfile) :
    profWeight ((k, v) :: p) t = profWeight p t := by
  simp [profWeight, mapFind?, h]

lemma cosStep_shift (b : TrigramProfile) (acc : ℝ) (kv : String × ℝ) :
    cosStep b acc kv = acc + cosStep b 0 kv := by
  rcases h : mapFind? b kv.1 with _ | w <;> simp [cosStep, h]

lemma foldl_cosStep_shift (b : TrigramProfile) : ∀ (a : TrigramProfile) (acc : ℝ),
    a.foldl (cosStep b) acc = acc + a.foldl (cosStep b) 0
  | [], acc => by simp
  | kv :: a, acc => by
    rw [List.foldl_cons, List.foldl_cons, foldl_cosStep_shift b a,
      foldl_cosStep_shift b a (cosStep b 0 kv), cosStep_shift]
    ring

lemma getCosineSimilarity_nil (b : TrigramProfile) : getCosineSimilarity [] b = 0 :=
  rfl

lemma getCosineSimilarity_cons (kv : String × ℝ) (a b : TrigramProfile) :
    getCosineSimilarity (kv :: a) b = cosStep b 0 kv + getCosineSimilarity a b := by
  rw [getCosineSimilarity, getCosineSimilarity, List.foldl_cons, foldl_cosStep_shift]

lemma mapFind?_of_mem_nodup : ∀ {p : TrigramProfile}, (p.map Prod.fst).Nodup →
    ∀ kv ∈ p, mapFind? p kv.1 = some kv.2
  | [], _, kv, hkv => absurd hkv (List.not_mem_nil kv)
  | x :: rest, h, kv, hkv => by
    rw [List.map_cons, List.nodup_cons] at h
    obtain ⟨hx, hrest⟩ := h
    rcases List.mem_cons.mp hkv with rfl | hmem
    · rw [mapFind?, if_pos rfl]
    · have hne : kv.1 ≠ x.1 := by
        intro he
        exact hx (he ▸ List.mem_map_of_mem Prod.fst hmem)
      rw [mapFind?, if_neg hne]
      exact mapFind?_of_mem_nodup hrest kv hmem

lemma getCosineSimilarity_eq_sumSquares : ∀ {a b : TrigramProfile},
    (∀ kv ∈ a, mapFind? b kv.1 = some kv.2) → getCosineSimilarity a b = sumSquares a
  | [], _, _ => rfl
  | kv :: a, b, h => by
    rw [getCosineSimilarity_cons, cosStep, h kv (by simp),
      getCosineSimilarity_eq_sumSquares (fun kv2 h2 => h kv2 (by simp [h2]))]
    simp [sumSquares]

lemma getCosineSimilarity_self {p : TrigramProfile} (h : (p.map Prod.fst).Nodup) :
    getCosineSimilarity p p = sumSquares p :=
  getCosineSimilarity_eq_sumSquares (mapFind?_of_mem_nodup h)

lemma getCosineSimilarity_inter_sum (b : TrigramProfile) : ∀ (a : TrigramProfile),
    (a.map Prod.fst).Nodup →
    getCosineSimilarity a b =
      (profKeys a ∩ profKeys b).sum (fun t => profWeight a t * profWeight b t)
  | [], _ => by
    simp [getCosineSimilarity_nil, profKeys]
  | kv :: a, ha => by
    rw [List.map_cons, List.nodup_cons] at ha
    obtain ⟨hk, ha2⟩ := ha
    have hkeys : profKeys (kv :: a) = insert kv.1 (profKeys a) := by
      rcases kv with ⟨k, v⟩
      simp [profKeys]
    have hknot : kv.1 ∉ profKeys a ∩ profKeys b := by
      intro hmem
      exact hk (mem_profKeys.mp (Finset.mem_inter.mp hmem).1)
    have hcong : ∀ t ∈ profKeys a ∩ profKeys b,
        profWeight (kv :: a) t * profWeight b t = profWeight a t * profWeight b t := by
      intro t ht
      have htk : t ≠ kv.1 := fun he => hknot (he ▸ ht)
      rcases kv with ⟨k, v⟩
      rw [profWeight_cons_ne htk]
    rw [getCosineSimilarity_cons, getCosineSimilarity_inter_sum b a ha2, hkeys]
    by_cases hb : kv.1 ∈ profKeys b
    · obtain ⟨w, hw⟩ : ∃ w, mapFind? b kv.1 = some w := by
        rcases hfind : mapFind? b kv.1 with _ | w
        · exact absurd (mem_profKeys.mp hb) ((mapFind?_eq_none_iff b kv.1).mp hfind)
        · exact ⟨w, rfl⟩
      rw [Finset.insert_inter_of_mem hb, Finset.sum_insert hknot, Finset.sum_congr rfl hcong]
      have hhead : profWeight (kv :: a) kv.1 = kv.2 := by
        rcases kv with ⟨k, v⟩
        exact profWeight_head k v a
      rw [hhead, cosStep, hw, profWeight, hw]
      simp [mul_comm]
    · have hnone : mapFind? b kv.1 = none :=
        (mapFind?_eq_none_iff b kv.1).mpr (fun hmem => hb (mem_profKeys.mpr hmem))
      rw [Finset.insert_inter_of_not_mem hb, Finset.sum_congr rfl hcong, cosStep, hnone]
      simp

lemma scanLanguages_const (ref : TrigramProfile) : ∀ (langs : LanguageProfiles) (m : ℝ)
    (best : String),
    (∀ lan ∈ langs, lan.trigramProfile ≠ [] → getCosineSimilarity ref lan.trigramProfile ≤ m) →
    scanLanguages ref langs m best = best
  | [], _, _, _ => rfl
  | lan :: rest, m, best, h => by
    rw [scanLanguages]
    by_cases he : lan.trigramProfile = []
    · rw [if_pos he]
      exact scanLanguages_const ref rest m best (fun l hl hne => h l (by simp [hl]) hne)
    · rw [if_neg he, if_neg (not_lt.mpr (h lan (by simp) he))]
      exact scanLanguages_const ref rest m best (fun l hl hne => h l (by simp [hl]) hne)

lemma maxSimilarity_nonneg (ref : TrigramProfile) : ∀ (langs : LanguageProfiles),
    0 ≤ maxSimilarity ref langs
  | [] => le_refl 0
  | lan :: rest => by
    rw [maxSimilarity]
    by_cases he : lan.trigramProfile = []
    · rw [if_pos he]
      exact maxSimilarity_nonneg ref rest
    · rw [if_neg he]
      exact le_trans (maxSimilarity_nonneg ref rest) (le_max_right _ _)

lemma le_maxSimilarity (ref : TrigramProfile) : ∀ (langs : LanguageProfiles),
    ∀ lan ∈ langs, lan.trigramProfile ≠ [] →
      getCosineSimilarity ref lan.trigramProfile ≤ maxSimilarity ref langs
  | [], lan, hmem, _ => absurd hmem (List.not_mem_nil lan)
  | lan0 :: rest, lan, hmem, hne => by
    rw [maxSimilarity]
    rcases List.mem_cons.mp hmem with rfl | hmem2
    · rw [if_neg hne]
      exact le_max_left _ _
    · by_cases he : lan0.trigramProfile = []
      · rw [if_pos he]
        exact le_maxSimilarity ref rest lan hmem2 hne
      · rw [if_neg he]
        exact le_trans (le_maxSimilarity ref rest lan hmem2 hne) (le_max_right _ _)

lemma maxSimilarity_empty_ref : ∀ (langs : LanguageProfiles),
    maxSimilarity ([] : TrigramProfile) langs = 0
  | [] => rfl
  | lan :: rest => by
    rw [maxSimilarity]
    by_cases he : lan.trigramProfile = []
    · rw [if_pos he]
      exact maxSimilarity_empty_ref rest
    · rw [if_neg he, maxSimilarity_empty_ref rest, getCosineSimilarity_nil]
      exact max_self 0

lemma scanLanguages_first_max (ref : TrigramProfile) : ∀ (langs : LanguageProfiles) (m : ℝ)
    (best : String), 0 ≤ m → m < maxSimilarity ref langs →
    scanLanguages ref langs m best = firstMaxLanguage ref (maxSimilarity ref langs) langs
  | [], m, best, h0, hlt => by
    rw [maxSimilarity] at hlt
    exact absurd hlt (not_lt.mpr h0)
  | lan :: rest, m, best, h0, hlt => by
    by_cases he : lan.trigramProfile = []
    · rw [maxSimilarity, if_pos he] at hlt ⊢
      rw [scanLanguages, if_pos he, firstMaxLanguage, if_neg (by simp [he])]
      exact scanLanguages_first_max ref rest m best h0 hlt
    · rw [maxSimilarity, if_neg he] at hlt ⊢
      rw [scanLanguages, if_neg he, firstMaxLanguage]
      by_cases hnm : getCosineSimilarity ref lan.trigramProfile > m
      · rw [if_pos hnm]
        by_cases hrest : getCosineSimilarity ref lan.trigramProfile < maxSimilarity ref rest
        · have hM : max (getCosineSimilarity ref lan.trigramProfile) (maxSimilarity ref rest)
              = maxSimilarity ref rest := max_eq_right (le_of_lt hrest)
          have hcond : ¬ (lan.trigramProfile ≠ [] ∧
              getCosineSimilarity ref lan.trigramProfile
                = max (getCosineSimilarity ref lan.trigramProfile) (maxSimilarity ref rest)) := by
            rintro ⟨-, heq⟩
            rw [hM] at heq
            exact absurd hrest (heq ▸ lt_irrefl _)
          rw [if_neg hcond, hM]
          exact scanLanguages_first_max ref rest _ _ (le_trans h0 (le_of_lt hnm)) hrest
        · have hM : max (getCosineSimilarity ref lan.trigramProfile) (maxSimilarity ref rest)
              = getCosineSimilarity ref lan.trigramProfile := max_eq_left (not_lt.mp hrest)
          rw [if_pos ⟨he, hM.symm⟩]
          exact scanLanguages_const ref rest _ _ (fun l hl hne =>
            le_trans (le_maxSimilarity ref rest l hl hne) (not_lt.mp hrest))
      · rw [if_neg hnm]
        have hnle : getCosineSimilarity ref lan.trigramProfile ≤ m := not_lt.mp hnm
        have hrest : m < maxSimilarity ref rest := by
          rcases max_cases (getCosineSimilarity ref lan.trigramProfile)
              (maxSimilarity ref rest) with ⟨hmax, _⟩ | ⟨hmax, _⟩
          · rw [hmax] at hlt
            exact absurd hlt (not_lt.mpr hnle)
          · rw [hmax] at hlt
            exact hlt
        have hM : max (getCosineSimilarity ref lan.trigramProfile) (maxSimilarity ref rest)
            = maxSimilarity ref rest := max_eq_right (le_trans hnle (le_of_lt hrest))
        have hcond : ¬ (lan.trigramProfile ≠ [] ∧
            getCosineSimilarity ref lan.trigramProfile
              = max (getCosineSimilarity ref lan.trigramProfile) (maxSimilarity ref rest)) := by
          rintro ⟨-, heq⟩
          rw [hM] at heq
          exact absurd hrest (not_lt.mpr (heq ▸ hnle))
        rw [if_neg hcond, hM]
        exact scanLanguages_first_max ref rest m best h0 hrest

lemma normalizeTrigramProfile_map_fst (p : TrigramProfile) :
    (normalizeTrigramProfile p).map Prod.fst = p.map Prod.fst := by
  simp [normalizeTrigramProfile]

lemma sumSquares_cons (kv : String × ℝ) (p : TrigramProfile) :
    sumSquares (kv :: p) = kv.2 * kv.2 + sumSquares p := by
  simp [sumSquares]

lemma sumSquares_map_div : ∀ (p : TrigramProfile) (n : ℝ),
    sumSquares (p.map (fun kv => (kv.1, kv.2 / n))) = sumSquares p / (n * n)
  | [], n => by
    simp [sumSquares]
  | kv :: p, n => by
    rw [List.map_cons, sumSquares_cons, sumSquares_cons, sumSquares_map_div p n]
    ring

lemma sumSquares_nonneg (p : TrigramProfile) : 0 ≤ sumSquares p :=
  List.sum_nonneg (by
    intro x hx
    obtain ⟨kv, _, rfl⟩ := List.mem_map.mp hx
    exact mul_self_nonneg kv.2)

lemma sumSquares_pos {p : TrigramProfile} {kv : String × ℝ} (hmem : kv ∈ p)
    (hv : 0 < kv.2) : 0 < sumSquares p := by
  have hle : kv.2 * kv.2 ≤ sumSquares p := by
    refine List.single_le_sum ?_ _ (List.mem_map_of_mem (fun kv => kv.2 * kv.2) hmem)
    intro x hx
    obtain ⟨kv2, _, rfl⟩ := List.mem_map.mp hx
    exact mul_self_nonneg kv2.2
  exact lt_of_lt_of_le (mul_pos hv hv) hle

lemma sumSquares_normalize {p : TrigramProfile} (hS : 0 < sumSquares p) :
    sumSquares (normalizeTrigramProfile p) = 1 := by
  rw [normalizeTrigramProfile, sumSquares_map_div, profileNorm,
    Real.mul_self_sqrt (le_of_lt hS)]
  exact div_self (ne_of_gt hS)

lemma buildTrigramProfile_sumSquares_pos {text : Text}
    (h : buildTrigramProfile text ≠ []) : 0 < sumSquares (buildTrigramProfile text) := by
  obtain ⟨kv, hmem⟩ := List.exists_mem_of_ne_nil _ h
  exact sumSquares_pos hmem
    (lt_of_lt_of_le one_pos (buildTrigramProfile_one_le text kv hmem))

lemma identifyLanguage_guard {text : Text} {languages : LanguageProfiles}
    (h : buildTrigramProfile text = [] ∨ languages = []) :
    identifyLanguage text languages = "" := by
  simp only [identifyLanguage]
  rw [if_pos h]

lemma identifyLanguage_scan {text : Text} {languages : LanguageProfiles}
    (h : ¬ (buildTrigramProfile text = [] ∨ languages = [])) :
    identifyLanguage text languages =
      scanLanguages (normalizeTrigramProfile (buildTrigramProfile text)) languages 0 "" := by
  simp only [identifyLanguage]
  rw [if_neg h]

/-- C2: if every similarity computed between the normalized text profile and
a non-empty catalog entry is `≤ 0` (in particular exactly `0`), then
`identifyLanguage` returns the sentinel `""`: a language whose similarity is
`0` never overrides the initial `max = 0.0` state, because the update uses a
strict `>` comparison. -/
theorem identify_no_positive_similarity (text : Text) (languages : LanguageProfiles)
    (h : ∀ lan ∈ languages, lan.trigramProfile ≠ [] →
      getCosineSimilarity (normalizeTrigramProfile (buildTrigramProfile text))
        lan.trigramProfile ≤ 0) :
    identifyLanguage text languages = "" := by
  by_cases hg : buildTrigramProfile text = [] ∨ languages = []
  · exact identifyLanguage_guard hg
  · rw [identifyLanguage_scan hg]
    exact scanLanguages_const _ languages 0 "" h

/-- C2 witness: the text `["abc"]` against a single catalog entry with a
non-empty profile sharing no trigram, so its similarity is exactly `0`. -/
theorem identify_no_positive_similarity_witness :
    (∀ lan ∈ ([⟨"en", [("xyz", 1)]⟩] : LanguageProfiles), lan.trigramProfile ≠ [] →
      getCosineSimilarity (normalizeTrigramProfile (buildTrigramProfile ["abc"]))
        lan.trigramProfile ≤ 0) ∧
    identifyLanguage ["abc"] [⟨"en", [("xyz", 1)]⟩] = "" := by
  have h : ∀ lan ∈ ([⟨"en", [("xyz", 1)]⟩] : LanguageProfiles), lan.trigramProfile ≠ [] →
      getCosineSimilarity (normalizeTrigramProfile (buildTrigramProfile ["abc"]))
        lan.trigramProfile ≤ 0 := by
    intro lan hmem _
    rcases List.mem_cons.mp hmem with rfl | hmem2
    · exact le_of_eq (rfl :
        getCosineSimilarity (normalizeTrigramProfile (buildTrigramProfile ["abc"]))
          [("xyz", 1)] = 0)
    · exact absurd hmem2 (List.not_mem_nil lan)
  exact ⟨h, identify_no_positive_similarity _ _ h⟩

/-- C3: whenever some catalog entry attains a positive maximum similarity
against the normalized text profile, `identifyLanguage` returns the language
code of the first entry, in catalog order, attaining that maximum
(`firstMaxLanguage`): the running maximum is updated only on a strictly
greater score, so on ties the earliest entry wins, and entries with an empty
trigram profile are skipped without scoring. (When the maximum over non-empty
entries is not positive, the sentinel is returned instead — that case is the
subject of C2.) -/
theorem identify_first_max_tie_break (text : Text) (languages : LanguageProfiles)
    (h : 0 < maxSimilarity (normalizeTrigramProfile (buildTrigramProfile text)) languages) :
    identifyLanguage text languages =
      firstMaxLanguage (normalizeTrigramProfile (buildTrigramProfile text))
        (maxSimilarity (normalizeTrigramProfile (buildTrigramProfile text)) languages)
        languages := by
  have hne : ¬ (buildTrigramProfile text = [] ∨ languages = []) := by
    rintro (hb | hl)
    · rw [hb, show normalizeTrigramProfile [] = ([] : TrigramProfile) from rfl,
        maxSimilarity_empty_ref] at h
      exact absurd h (lt_irrefl 0)
    · rw [hl, maxSimilarity] at h
      exact absurd h (lt_irrefl 0)
  rw [identifyLanguage_scan hne]
  exact scanLanguages_first_max _ languages 0 "" (le_refl 0) h

/-- C3 witness: the text `["abc"]` against a two-entry catalog whose entries
attain the same maximum similarity `1`; the theorem applies with a positive
maximum. -/
theorem identify_first_max_tie_break_witness :
    0 < maxSimilarity (normalizeTrigramProfile (buildTrigramProfile ["abc"]))
        [⟨"en", [("abc", 1)]⟩, ⟨"fr", [("abc", 1)]⟩] ∧
    identifyLanguage ["abc"] [⟨"en", [("abc", 1)]⟩, ⟨"fr", [("abc", 1)]⟩] =
      firstMaxLanguage (normalizeTrigramProfile (buildTrigramProfile ["abc"]))
        (maxSimilarity (normalizeTrigramProfile (buildTrigramProfile ["abc"]))
          [⟨"en", [("abc", 1)]⟩, ⟨"fr", [("abc", 1)]⟩])
        [⟨"en", [("abc", 1)]⟩, ⟨"fr", [("abc", 1)]⟩] := by
  have hb : buildTrigramProfile ["abc"] = [("abc", 1)] := rfl
  have hn : profileNorm [("abc", (1 : ℝ))] = 1 := by
    rw [profileNorm, show sumSquares [("abc", (1 : ℝ))] = 1 by simp [sumSquares]]
    exact Real.sqrt_one
  have hc : getCosineSimilarity (normalizeTrigramProfile (buildTrigramProfile ["abc"]))
      [("abc", 1)] = 1 := by
    rw [hb]
    simp [getCosineSimilarity, normalizeTrigramProfile, cosStep, mapFind?, hn]
  have hpos : 0 < maxSimilarity (normalizeTrigramProfile (buildTrigramProfile ["abc"]))
      [⟨"en", [("abc", 1)]⟩, ⟨"fr", [("abc", 1)]⟩] :=
    lt_of_lt_of_le one_pos (le_trans (le_of_eq hc.symm)
      (le_maxSimilarity _ _ ⟨"en", [("abc", 1)]⟩ (List.mem_cons_self _ _)
        (List.cons_ne_nil _ _)))
  exact ⟨hpos, identify_first_max_tie_break _ _ hpos⟩

lemma optCount_none (c : ℕ) :
    optCount none c = if c = 0 then none else some ((c : ℕ) : ℝ) := by
  cases c with
  | zero => rfl
  | succ n =>
    simp [optCount]

/-- C6: for profiles with unique keys (the `std::map` invariant on the first
argument), `getCosineSimilarity a b` equals the sum, over the trigrams
present in both key sets, of `a[t] * b[t]`; trigrams present in only one
profile contribute zero, no normalization of the inputs is performed, and
(being a pure function of its arguments in this embedding, mirroring the
read-only loop of the source) neither profile is mutated. -/
theorem cosine_sparse_dot_product (a b : TrigramProfile) (ha : (a.map Prod.fst).Nodup) :
    getCosineSimilarity a b =
      (profKeys a ∩ profKeys b).sum (fun t => profWeight a t * profWeight b t) :=
  getCosineSimilarity_inter_sum b a ha

/-- C6 witness: instantiated at the one-entry profiles `{"ab" ↦ 2}` and
`{"ab" ↦ 5}`. -/
theorem cosine_sparse_dot_product_witness :
    (([("ab", (2 : ℝ))] : TrigramProfile).map Prod.fst).Nodup ∧
    getCosineSimilarity [("ab", 2)] [("ab", 5)] =
      (profKeys [("ab", (2 : ℝ))] ∩ profKeys [("ab", (5 : ℝ))]).sum
        (fun t => profWeight [("ab", (2 : ℝ))] t * profWeight [("ab", (5 : ℝ))] t) := by
  have ha : (([("ab", (2 : ℝ))] : TrigramProfile).map Prod.fst).Nodup := by simp
  exact ⟨ha, cosine_sparse_dot_product _ _ ha⟩

/-- C7: for every trigram profile with unique keys (the `std::map` invariant)
holding at least one positive weight (hence non-empty), after
`normalizeTrigramProfile` the Euclidean norm of the weights is exactly `1`,
and equivalently the cosine similarity of the normalized profile with itself
is exactly `1` — the float "within tolerance" clause becomes exact equality
in the real-valued model of float arithmetic. -/
theorem normalize_unit_norm (p : TrigramProfile) (hnd : (p.map Prod.fst).Nodup)
    (hpos : ∃ kv ∈ p, 0 < kv.2) :
    profileNorm (normalizeTrigramProfile p) = 1 ∧
    getCosineSimilarity (normalizeTrigramProfile p) (normalizeTrigramProfile p) = 1 := by
  obtain ⟨kv, hmem, hv⟩ := hpos
  have hS : 0 < sumSquares p := sumSquares_pos hmem hv
  have h1 : sumSquares (normalizeTrigramProfile p) = 1 := sumSquares_normalize hS
  constructor
  · rw [profileNorm, h1]
    exact Real.sqrt_one
  · have hnd2 : ((normalizeTrigramProfile p).map Prod.fst).Nodup := by
      rw [normalizeTrigramProfile_map_fst]
      exact hnd
    rw [getCosineSimilarity_self hnd2, h1]

/-- C7 witness: instantiated at the one-entry profile `{"abc" ↦ 2}`. -/
theorem normalize_unit_norm_witness :
    ((([("abc", (2 : ℝ))] : TrigramProfile).map Prod.fst).Nodup ∧
      ∃ kv ∈ ([("abc", (2 : ℝ))] : TrigramProfile), 0 < kv.2) ∧
    profileNorm (normalizeTrigramProfile [("abc", 2)]) = 1 ∧
    getCosineSimilarity (normalizeTrigramProfile [("abc", 2)])
      (normalizeTrigramProfile [("abc", 2)]) = 1 := by
  have hnd : (([("abc", (2 : ℝ))] : TrigramProfile).map Prod.fst).Nodup := by simp
  have hpos : ∃ kv ∈ ([("abc", (2 : ℝ))] : TrigramProfile), 0 < kv.2 :=
    ⟨("abc", 2), by simp, by norm_num⟩
  exact ⟨⟨hnd, hpos⟩, normalize_unit_norm _ hnd hpos⟩

/-- C8: whenever the Step 2 guard of `identifyLanguage` lets execution
proceed (the text's profile and the catalog are both non-empty), the profile
handed to `normalizeTrigramProfile` is non-empty and has strictly positive
Euclidean norm, so the zero-norm (division-by-zero) branch of the normalizer
is unreachable from `identifyLanguage`; on the guarded path the result is the
catalog scan of the normalized profile. -/
theorem identify_never_normalizes_empty_profile (text : Text) (languages : LanguageProfiles)
    (h : ¬ (buildTrigramProfile text = [] ∨ languages = [])) :
    buildTrigramProfile text ≠ [] ∧ 0 < profileNorm (buildTrigramProfile text) ∧
    identifyLanguage text languages =
      scanLanguages (normalizeTrigramProfile (buildTrigramProfile text)) languages 0 "" := by
  have hne : buildTrigramProfile text ≠ [] := fun hb => h (Or.inl hb)
  exact ⟨hne, Real.sqrt_pos.mpr (buildTrigramProfile_sumSquares_pos hne),
    identifyLanguage_scan h⟩

/-- C8 witness: instantiated at the text `["abc"]` against a concrete
one-entry catalog. -/
theorem identify_never_normalizes_empty_profile_witness :
    (¬ (buildTrigramProfile ["abc"] = [] ∨
        ([⟨"en", [("def", 1)]⟩] : LanguageProfiles) = [])) ∧
    buildTrigramProfile ["abc"] ≠ [] ∧
    0 < profileNorm (buildTrigramProfile ["abc"]) ∧
    identifyLanguage ["abc"] [⟨"en", [("def", 1)]⟩] =
      scanLanguages (normalizeTrigramProfile (buildTrigramProfile ["abc"]))
        [⟨"en", [("def", 1)]⟩] 0 "" := by
  have h : ¬ (buildTrigramProfile ["abc"] = [] ∨
      ([⟨"en", [("def", 1)]⟩] : LanguageProfiles) = []) := by
    rintro (hb | hl)
    · rw [show buildTrigramProfile ["abc"] = [("abc", 1)] from rfl] at hb
      exact absurd hb (List.cons_ne_nil _ _)
    · exact absurd hl (List.cons_ne_nil _ _)
  obtain ⟨h1, h2, h3⟩ := identify_never_normalizes_empty_profile ["abc"] _ h
  exact ⟨h, h1, h2, h3⟩

/-- C9: `normalizeTrigramProfile` rescales the stored weights in place and
leaves the key set untouched: the sequence of trigram keys after
normalization is identical to the one before, with no key added or
removed. -/
theorem normalize_keeps_key_set (p : TrigramProfile) :
    (normalizeTrigramProfile p).map Prod.fst = p.map Prod.fst :=
  normalizeTrigramProfile_map_fst p

lemma hasLessThanNCharsGo_spec : ∀ (text : Text) (total : Nat), total < 3 →
    (hasLessThanNCharsGo total text = true ↔
      total + (text.map String.utf8ByteSize).sum < 3)
  | [], total, h => by
    simp [hasLessThanNCharsGo, h]
  | s :: rest, total, h => by
    rw [hasLessThanNCharsGo]
    by_cases hge : total + s.utf8ByteSize ≥ 3
    · rw [if_pos hge]
      simp only [List.map_cons, List.sum_cons]
      exact iff_of_false (by simp) (by omega)
    · rw [if_neg hge, hasLessThanNCharsGo_spec rest _ (by omega)]
      simp only [List.map_cons, List.sum_cons]
      omega

/-- C10: `hasLessThanNChars text n` returns `true` iff the total byte length
of all lines (summing raw encoded `std::string::size` values, with no CR
stripping and no Unicode decoding) is less than the literal `3`; the result
is independent of the parameter `n`, despite the function's documentation
saying it checks against `n` characters. -/
theorem hasLessThanNChars_spec (text : Text) (n m : Int) :
    (hasLessThanNChars text n = true ↔ (text.map String.utf8ByteSize).sum < 3) ∧
    hasLessThanNChars text n = hasLessThanNChars text m := by
  constructor
  · rw [hasLessThanNChars]
    simpa using hasLessThanNCharsGo_spec text 0 (by omega)
  · rfl

lemma foldWindows_eq : ∀ (ws : List (List Nat)) (prof p : TrigramProfile),
    foldWindows prof ws = some p → p = (ws.filterMap toBytes?).foldl mapIncr prof
  | [], prof, p, h => by
    rw [List.filterMap_nil, List.foldl_nil]
    exact (Option.some.inj h).symm
  | w :: ws, prof, p, h => by
    rw [foldWindows] at h
    rcases htb : toBytes? w with _ | tri
    · rw [htb] at h
      cases h
    · rw [htb] at h
      rw [List.filterMap_cons, htb, List.foldl_cons]
      exact foldWindows_eq ws _ p h

lemma processLineUtf16_eq {prof p : TrigramProfile} {line : String}
    (h : processLineUtf16 prof line = some p) :
    p = (lineKeysUtf16 line).foldl mapIncr prof := by
  simp only [processLineUtf16] at h
  rw [lineKeysUtf16]
  by_cases h1 : stripCR line = ""
  · rw [if_pos h1] at h
    rw [if_pos h1, List.foldl_nil]
    exact (Option.some.inj h).symm
  · rw [if_neg h1] at h
    by_cases h2 : (strUtf16 (stripCR line).data).length < 3
    · rw [if_pos h2] at h
      rw [if_neg h1, if_pos h2, List.foldl_nil]
      exact (Option.some.inj h).symm
    · rw [if_neg h2] at h
      rw [if_neg h1, if_neg h2]
      exact foldWindows_eq _ _ _ h

lemma buildGoUtf16_eq : ∀ (text : Text) (prof p : TrigramProfile),
    buildGoUtf16 prof text = some p → p = (textKeysUtf16 text).foldl mapIncr prof
  | [], prof, p, h => (Option.some.inj h).symm
  | line :: rest, prof, p, h => by
    rw [buildGoUtf16] at h
    rcases hpl : processLineUtf16 prof line with _ | p2
    · rw [hpl] at h
      cases h
    · rw [hpl] at h
      rw [textKeysUtf16, List.foldl_append, ← processLineUtf16_eq hpl]
      exact buildGoUtf16_eq rest p2 p h

lemma buildTrigramProfileUtf16_eq {text : Text} {p : TrigramProfile}
    (h : buildTrigramProfileUtf16 text = some p) :
    p = (textKeysUtf16 text).foldl mapIncr [] :=
  buildGoUtf16_eq text [] p h

lemma processLineUtf16_skip {line : String}
    (h : (strUtf16 (stripCR line).data).length < 3) (prof : TrigramProfile) :
    processLineUtf16 prof line = some prof := by
  simp only [processLineUtf16]
  by_cases h1 : stripCR line = ""
  · rw [if_pos h1]
  · rw [if_neg h1, if_pos h]

lemma buildGoUtf16_all_short : ∀ (text : Text),
    (∀ line ∈ text, (strUtf16 (stripCR line).data).length < 3) →
    ∀ (prof : TrigramProfile), buildGoUtf16 prof text = some prof
  | [], _, _ => rfl
  | line :: rest, h, prof => by
    rw [buildGoUtf16, processLineUtf16_skip (h line (by simp)) prof]
    exact buildGoUtf16_all_short rest (fun l hl => h l (by simp [hl])) prof

lemma unitWindows_mem : ∀ (us : List Nat) (w : List Nat), w ∈ unitWindows us →
    w.length = 3 ∧ ∀ u ∈ w, u ∈ us
  | [], w, hw => absurd hw (List.not_mem_nil w)
  | [_], w, hw => absurd hw (List.not_mem_nil w)
  | [_, _], w, hw => absurd hw (List.not_mem_nil w)
  | a :: b :: c :: rest, w, hw => by
    rw [unitWindows] at hw
    rcases List.mem_cons.mp hw with rfl | hw2
    · refine ⟨rfl, ?_⟩
      intro u hu
      rcases List.mem_cons.mp hu with rfl | hu2
      · simp
      · rcases List.mem_cons.mp hu2 with rfl | hu3
        · simp
        · rcases List.mem_cons.mp hu3 with rfl | hu4
          · simp
          · exact absurd hu4 (List.not_mem_nil u)
    · obtain ⟨h3, hsub⟩ := unitWindows_mem (b :: c :: rest) w hw2
      refine ⟨h3, ?_⟩
      intro u hu
      have := hsub u hu
      simp only [List.mem_cons] at this ⊢
      tauto

lemma unitWindows_windows : ∀ (us : List Nat),
    unitWindows us = (List.range (us.length - 2)).map (fun i => (us.drop i).take 3)
  | [] => rfl
  | [_] => rfl
  | [_, _] => rfl
  | a :: b :: c :: rest => by
    rw [unitWindows, unitWindows_windows (b :: c :: rest)]
    simp only [List.length_cons]
    rw [show rest.length + 1 + 1 + 1 - 2 = rest.length + 1 from by omega,
      show rest.length + 1 + 1 - 2 = rest.length from by omega,
      List.range_succ_eq_map, List.map_cons, List.map_map]
    rfl

lemma char_toNat_lt (c : Char) : c.toNat < 0x110000 := by
  rcases c.valid with h | ⟨_, h2⟩
  · exact Nat.lt_trans h (by norm_num)
  · exact h2

lemma utf16Encode_lt (c : Char) : ∀ u ∈ utf16Encode c, u < 0x10000 := by
  have hlt := char_toNat_lt c
  rw [utf16Encode]
  by_cases hc : c.toNat < 0x10000
  · rw [if_pos hc]
    intro u hu
    have hu2 : u = c.toNat := by simpa using hu
    omega
  · rw [if_neg hc]
    intro u hu
    have hu2 : u = 0xD800 + (c.toNat - 0x10000) / 0x400 ∨
        u = 0xDC00 + (c.toNat - 0x10000) % 0x400 := by simpa using hu
    omega

lemma strUtf16_lt : ∀ (cs : List Char), ∀ u ∈ strUtf16 cs, u < 0x10000
  | [], u, hu => absurd hu (List.not_mem_nil u)
  | c :: cs, u, hu => by
    rw [strUtf16] at hu
    rcases List.mem_append.mp hu with h | h
    · exact utf16Encode_lt c u h
    · exact strUtf16_lt cs u h

lemma toNat_ofNat_valid {n : Nat} (h : n.isValidChar) : (Char.ofNat n).toNat = n := by
  rw [Char.ofNat, dif_pos h]
  rfl

lemma utf16Encode_ofNat_small {n : Nat} (hv : n.isValidChar) (hn : n < 0x10000) :
    utf16Encode (Char.ofNat n) = [n] := by
  rw [utf16Encode, toNat_ofNat_valid hv, if_pos hn]

lemma utf16Encode_ofNat_pair {n : Nat} (hv : n.isValidChar) (hn : 0x10000 ≤ n) :
    utf16Encode (Char.ofNat n)
      = [0xD800 + (n - 0x10000) / 0x400, 0xDC00 + (n - 0x10000) % 0x400] := by
  rw [utf16Encode, toNat_ofNat_valid hv, if_neg (by omega)]

lemma utf16_roundtrip : ∀ (w : List Nat) (cs : List Char),
    (∀ u ∈ w, u < 0x10000) → utf16Decode? w = some cs → strUtf16 cs = w
  | [], cs, _, h => by
    obtain rfl := Option.some.inj h
    rfl
  | [u], cs, hlt, h => by
    rw [utf16Decode?] at h
    by_cases hs : u < 0xD800 ∨ 0xE000 ≤ u
    · rw [if_pos hs] at h
      obtain rfl := Option.some.inj h
      have hu : u < 0x10000 := hlt u (by simp)
      have hv : Nat.isValidChar u := by
        rcases hs with h1 | h1
        · exact Or.inl h1
        · exact Or.inr ⟨by omega, by omega⟩
      rw [strUtf16, strUtf16, utf16Encode_ofNat_small hv hu, List.append_nil]
    · rw [if_neg hs] at h
      cases h
  | u :: v :: rest, cs, hlt, h => by
    rw [utf16Decode?] at h
    by_cases hs : u < 0xD800 ∨ 0xE000 ≤ u
    · rw [if_pos hs] at h
      rcases hrec : utf16Decode? (v :: rest) with _ | cs2
      · rw [hrec] at h
        cases h
      · rw [hrec] at h
        obtain rfl := Option.some.inj h
        have hu : u < 0x10000 := hlt u (by simp)
        have hv : Nat.isValidChar u := by
          rcases hs with h1 | h1
          · exact Or.inl h1
          · exact Or.inr ⟨by omega, by omega⟩
        rw [strUtf16, utf16Encode_ofNat_small hv hu,
          utf16_roundtrip (v :: rest) cs2 (fun x hx => hlt x (by simp [hx])) hrec]
        rfl
    · rw [if_neg hs] at h
      push_neg at hs
      by_cases hp : u < 0xDC00 ∧ 0xDC00 ≤ v ∧ v < 0xE000
      · rw [if_pos hp] at h
        rcases hrec : utf16Decode? rest with _ | cs2
        · rw [hrec] at h
          cases h
        · rw [hrec] at h
          obtain rfl := Option.some.inj h
          obtain ⟨hp1, hp2, hp3⟩ := hp
          obtain ⟨hs1, hs2⟩ := hs
          have hvalid : Nat.isValidChar (0x10000 + (u - 0xD800) * 0x400 + (v - 0xDC00)) :=
            Or.inr ⟨by omega, by omega⟩
          rw [strUtf16, utf16Encode_ofNat_pair hvalid (by omega),
            utf16_roundtrip rest cs2 (fun x hx => hlt x (by simp [hx])) hrec]
          have h1 : 0xD800 +
              ((0x10000 + (u - 0xD800) * 0x400 + (v - 0xDC00)) - 0x10000) / 0x400 = u := by
            omega
          have h2 : 0xDC00 +
              ((0x10000 + (u - 0xD800) * 0x400 + (v - 0xDC00)) - 0x10000) % 0x400 = v := by
            omega
          rw [h1, h2]
          rfl
      · rw [if_neg hp] at h
        cases h

lemma lineKeysUtf16_units (line : String) :
    ∀ k ∈ lineKeysUtf16 line, (strUtf16 k.data).length = 3 := by
  intro k hk
  rw [lineKeysUtf16] at hk
  split at hk
  · exact absurd hk (List.not_mem_nil k)
  · split at hk
    · exact absurd hk (List.not_mem_nil k)
    · obtain ⟨w, hw, htb⟩ := List.mem_filterMap.mp hk
      obtain ⟨h3, hsub⟩ := unitWindows_mem _ w hw
      rw [toBytes?] at htb
      obtain ⟨cs, hdec, hmk⟩ := Option.map_eq_some'.mp htb
      have hlt : ∀ u ∈ w, u < 0x10000 := fun u hu => strUtf16_lt _ u (hsub u hu)
      have hrt := utf16_roundtrip w cs hlt hdec
      rw [← hmk, show (String.mk cs).data = cs from rfl, hrt, h3]

lemma textKeysUtf16_units : ∀ (text : Text), ∀ k ∈ textKeysUtf16 text,
    (strUtf16 k.data).length = 3
  | [], k, hk => absurd hk (List.not_mem_nil k)
  | line :: rest, k, hk => by
    rw [textKeysUtf16] at hk
    rcases List.mem_append.mp hk with h | h
    · exact lineKeysUtf16_units line k h
    · exact textKeysUtf16_units rest k h

lemma char_scalar {c : Char} (h : c.toNat < 0x10000) :
    c.toNat < 0xD800 ∨ 0xE000 ≤ c.toNat := by
  have hv : c.toNat < 0xD800 ∨ (0xDFFF < c.toNat ∧ c.toNat < 0x110000) := c.valid
  omega

lemma bmp_utf16Encode {c : Char} (h : c.toNat < 0x10000) : utf16Encode c = [c.toNat] := by
  rw [utf16Encode, if_pos h]

lemma bmp_strUtf16 : ∀ {cs : List Char}, (∀ c ∈ cs, c.toNat < 0x10000) →
    strUtf16 cs = cs.map Char.toNat
  | [], _ => rfl
  | c :: cs, h => by
    rw [strUtf16, bmp_utf16Encode (h c (by simp)),
      bmp_strUtf16 (fun x hx => h x (by simp [hx])), List.map_cons]
    rfl

lemma utf16Decode?_bmp3 {a b c : Char} (ha : a.toNat < 0x10000) (hb : b.toNat < 0x10000)
    (hc : c.toNat < 0x10000) :
    utf16Decode? [a.toNat, b.toNat, c.toNat] = some [a, b, c] := by
  rw [utf16Decode?, if_pos (char_scalar ha), utf16Decode?, if_pos (char_scalar hb),
    utf16Decode?, if_pos (char_scalar hc), Char.ofNat_toNat, Char.ofNat_toNat,
    Char.ofNat_toNat]

lemma bmp_foldWindows : ∀ (cs : List Char), (∀ c ∈ cs, c.toNat < 0x10000) →
    ∀ prof : TrigramProfile, foldWindows prof (unitWindows (cs.map Char.toNat)) =
      some ((lineTrigrams cs).foldl mapIncr prof)
  | [], _, _ => rfl
  | [_], _, _ => rfl
  | [_, _], _, _ => rfl
  | a :: b :: c :: rest, h, prof => by
    rw [List.map_cons, List.map_cons, List.map_cons, unitWindows, foldWindows,
      show toBytes? [a.toNat, b.toNat, c.toNat] = some (String.mk [a, b, c]) from by
        rw [toBytes?, utf16Decode?_bmp3 (h a (by simp)) (h b (by simp)) (h c (by simp))]
        rfl,
      lineTrigrams, List.foldl_cons]
    exact bmp_foldWindows (b :: c :: rest) (fun x hx => h x (by simp [hx])) _

lemma bmp_processLine {line : String} (h : ∀ c ∈ (stripCR line).data, c.toNat < 0x10000)
    (prof : TrigramProfile) :
    processLineUtf16 prof line = some (processLine prof line) := by
  simp only [processLineUtf16, processLine]
  by_cases h1 : stripCR line = ""
  · rw [if_pos h1, if_pos h1]
  · rw [if_neg h1, if_neg h1]
    have hlen : (strUtf16 (stripCR line).data).length = (stripCR line).data.length := by
      rw [bmp_strUtf16 h, List.length_map]
    by_cases h2 : (stripCR line).data.length < 3
    · rw [if_pos (by omega : (strUtf16 (stripCR line).data).length < 3), if_pos h2]
    · rw [if_neg (by omega : ¬ (strUtf16 (stripCR line).data).length < 3), if_neg h2,
        bmp_strUtf16 h]
      exact bmp_foldWindows _ h prof

lemma bmp_buildGo : ∀ (text : Text),
    (∀ line ∈ text, ∀ c ∈ (stripCR line).data, c.toNat < 0x10000) →
    ∀ prof : TrigramProfile, buildGoUtf16 prof text = some (text.foldl processLine prof)
  | [], _, _ => rfl
  | line :: rest, h, prof => by
    rw [buildGoUtf16, bmp_processLine (h line (by simp)) prof, List.foldl_cons]
    exact bmp_buildGo rest (fun l hl => h l (by simp [hl])) (processLine prof line)

/-- On a text confined to the basic multilingual plane (every code point below
`U+10000`), the UTF-16 code-unit model and the code-point abstraction build
the same profile, and extraction cannot throw. -/
lemma bmp_buildTrigramProfile {text : Text}
    (h : ∀ line ∈ text, ∀ c ∈ (stripCR line).data, c.toNat < 0x10000) :
    buildTrigramProfileUtf16 text = some (buildTrigramProfile text) :=
  bmp_buildGo text h []

/-- On a BMP-only text the two models of `identifyLanguage` agree. -/
lemma bmp_identifyLanguage {text : Text} (languages : LanguageProfiles)
    (h : ∀ line ∈ text, ∀ c ∈ (stripCR line).data, c.toNat < 0x10000) :
    identifyLanguageUtf16 text languages = some (identifyLanguage text languages) := by
  simp only [identifyLanguageUtf16]
  rw [bmp_buildTrigramProfile h]
  by_cases hg : buildTrigramProfile text = [] ∨ languages = []
  · rw [identifyLanguage_guard hg]
    show (if buildTrigramProfile text = [] ∨ languages = [] then some ""
      else some (scanLanguages (normalizeTrigramProfile (buildTrigramProfile text))
        languages 0 "")) = some ""
    rw [if_pos hg]
  · rw [identifyLanguage_scan hg]
    show (if buildTrigramProfile text = [] ∨ languages = [] then some ""
      else some (scanLanguages (normalizeTrigramProfile (buildTrigramProfile text))
        languages 0 "")) =
      some (scanLanguages (normalizeTrigramProfile (buildTrigramProfile text)) languages 0 "")
    rw [if_neg hg]

/-- C1 counterexample: on the well-formed text `["😀😀"]` (each `😀` is the
supplementary code point `U+1F600`, hence a surrogate pair of UTF-16 units),
the first 3-unit window ends in a lone high surrogate, so
`converter.to_bytes` throws `std::range_error`; and since the profile is
built before the catalog check, `identifyLanguage` applied to this text and
the EMPTY catalog raises the error (modelled `none`) instead of returning
the sentinel — refuting the claim that it returns the sentinel for every
text without raising an error. -/
theorem identify_empty_catalog_counterexample :
    buildTrigramProfileUtf16 ["😀😀"] = none ∧
    identifyLanguageUtf16 ["😀😀"] [] = none :=
  ⟨rfl, rfl⟩

/-- C1 (amended): for every catalog, `identifyLanguage` applied to a text
whose trigram extraction returns an empty profile (in particular the empty
text, whose extraction cannot throw) returns the "no decision" sentinel `""`;
and for every text whose trigram extraction does not throw, `identifyLanguage`
applied to the empty catalog returns the sentinel. Both exits happen at the
Step 2 guard, before normalization or scoring. On a text where extraction
throws — possible only with supplementary-plane characters — the exception
escapes `identifyLanguage` instead, because the profile is built before the
catalog check (see the counterexample). -/
theorem identify_empty_inputs_utf16 (text : Text) (languages : LanguageProfiles) :
    buildTrigramProfileUtf16 ([] : Text) = some [] ∧
    (buildTrigramProfileUtf16 text = some [] →
      identifyLanguageUtf16 text languages = some "") ∧
    (∀ prof : TrigramProfile, buildTrigramProfileUtf16 text = some prof →
      identifyLanguageUtf16 text [] = some "") := by
  refine ⟨rfl, ?_, ?_⟩
  · intro h
    simp only [identifyLanguageUtf16]
    rw [h]
    show (if ([] : TrigramProfile) = [] ∨ languages = [] then some ""
      else some (scanLanguages (normalizeTrigramProfile []) languages 0 "")) = some ""
    rw [if_pos (Or.inl rfl)]
  · intro prof h
    simp only [identifyLanguageUtf16]
    rw [h]
    show (if prof = [] ∨ True then some ""
      else some (scanLanguages (normalizeTrigramProfile prof) [] 0 "")) = some ""
    rw [if_pos (Or.inr trivial)]

/-- C1 witness: instantiated at the concrete text `["ab", ""]` (empty
profile, extraction succeeds) against a one-entry catalog and against the
empty catalog. -/
theorem identify_empty_inputs_utf16_witness :
    buildTrigramProfileUtf16 ["ab", ""] = some [] ∧
    identifyLanguageUtf16 ["ab", ""] [⟨"en", [("abc", 1)]⟩] = some "" ∧
    identifyLanguageUtf16 ["ab", ""] [] = some "" := by
  have h : buildTrigramProfileUtf16 ["ab", ""] = some [] := rfl
  obtain ⟨-, h2, h3⟩ := identify_empty_inputs_utf16 ["ab", ""] [⟨"en", [("abc", 1)]⟩]
  exact ⟨h, h2 h, h3 [] h⟩

/-- C4 counterexample: the line `"a😀"` has 2 code points after CR-stripping
(fewer than 3), but 3 UTF-16 code units, so the source does NOT skip it: it
builds the non-empty profile mapping the key `"a😀"` — a key of 2 code
points, not 3 — to `1`, and against a catalog containing that key it returns
that language instead of the sentinel. -/
theorem short_lines_counterexample :
    (∀ line ∈ (["a😀"] : Text), (stripCR line).data.length < 3) ∧
    buildTrigramProfileUtf16 ["a😀"] = some [("a😀", 1)] ∧
    identifyLanguageUtf16 ["a😀"] [⟨"xx", [("a😀", 1)]⟩] = some "xx" ∧
    ("a😀" : String).length = 2 := by
  refine ⟨by decide, rfl, ?_, by decide⟩
  have hn : profileNorm [("a😀", (1 : ℝ))] = 1 := by
    rw [profileNorm, show sumSquares [("a😀", (1 : ℝ))] = 1 by simp [sumSquares]]
    exact Real.sqrt_one
  have hc : getCosineSimilarity (normalizeTrigramProfile [("a😀", (1 : ℝ))])
      [("a😀", 1)] = 1 := by
    simp [getCosineSimilarity, normalizeTrigramProfile, cosStep, mapFind?, hn]
  show (if ([("a😀", (1 : ℝ))] : TrigramProfile) = [] ∨
      ([⟨"xx", [("a😀", 1)]⟩] : LanguageProfiles) = [] then some ""
    else some (scanLanguages (normalizeTrigramProfile [("a😀", (1 : ℝ))])
      [⟨"xx", [("a😀", 1)]⟩] 0 "")) = some "xx"
  rw [if_neg (by simp : ¬ (([("a😀", (1 : ℝ))] : TrigramProfile) = [] ∨
    ([⟨"xx", [("a😀", 1)]⟩] : LanguageProfiles) = []))]
  rw [scanLanguages, if_neg (by simp :
    ¬ (LanguageProfile.mk "xx" [("a😀", (1 : ℝ))]).trigramProfile = [])]
  rw [if_pos (show getCosineSimilarity (normalizeTrigramProfile [("a😀", (1 : ℝ))])
      (LanguageProfile.mk "xx" [("a😀", (1 : ℝ))]).trigramProfile > 0 by
    show getCosineSimilarity (normalizeTrigramProfile [("a😀", (1 : ℝ))]) [("a😀", 1)] > 0
    rw [hc]
    norm_num)]
  rw [scanLanguages]

/-- C4 (amended): for every text in which every line, after stripping a
single trailing carriage return, has fewer than 3 UTF-16 code units (for
lines confined to the basic multilingual plane this coincides with "fewer
than 3 code points"), `buildTrigramProfile` returns the empty profile and
`identifyLanguage` returns the sentinel `""` against any catalog; and every
trigram key ever produced by a non-throwing extraction is the re-encoding of
exactly 3 UTF-16 code units — never 3 raw bytes — which is 3 code points
exactly when the window spans no surrogate pair. -/
theorem short_lines_utf16 (text : Text) (languages : LanguageProfiles)
    (h : ∀ line ∈ text, (strUtf16 (stripCR line).data).length < 3) :
    buildTrigramProfileUtf16 text = some [] ∧
    identifyLanguageUtf16 text languages = some "" ∧
    (∀ (t : Text) (prof : TrigramProfile), buildTrigramProfileUtf16 t = some prof →
      ∀ k ∈ prof.map Prod.fst, (strUtf16 k.data).length = 3) := by
  have hb : buildTrigramProfileUtf16 text = some [] := buildGoUtf16_all_short text h []
  refine ⟨hb, ?_, ?_⟩
  · simp only [identifyLanguageUtf16]
    rw [hb]
    show (if ([] : TrigramProfile) = [] ∨ languages = [] then some ""
      else some (scanLanguages (normalizeTrigramProfile []) languages 0 "")) = some ""
    rw [if_pos (Or.inl rfl)]
  · intro t prof hp k hk
    rw [buildTrigramProfileUtf16_eq hp] at hk
    rcases foldl_mapIncr_fst_mem (textKeysUtf16 t) [] k hk with h1 | h2
    · exact absurd h1 (by simp)
    · exact textKeysUtf16_units t k h2

/-- C4 witness: instantiated at the text `["ab"]` (one line of 2 code units)
against a concrete non-empty catalog. -/
theorem short_lines_utf16_witness :
    (∀ line ∈ (["ab"] : Text), (strUtf16 (stripCR line).data).length < 3) ∧
    buildTrigramProfileUtf16 ["ab"] = some [] ∧
    identifyLanguageUtf16 ["ab"] [⟨"en", [("abc", 1)]⟩] = some "" := by
  have h : ∀ line ∈ (["ab"] : Text), (strUtf16 (stripCR line).data).length < 3 := by decide
  obtain ⟨h1, h2, -⟩ := short_lines_utf16 ["ab"] [⟨"en", [("abc", 1)]⟩] h
  exact ⟨h, h1, h2⟩

/-- C5 counterexample: the line `"a😀b"` has L = 3 code points, so the claim
as stated demands exactly L − 2 = 1 trigram, the code-point window
`[0, 1, 2]` (the whole line `"a😀b"`) with count 1; the source instead slides
over its 4 UTF-16 code units and produces the two keys `"a😀"` and `"😀b"`,
and stores no entry at all for the claimed window `"a😀b"`. -/
theorem trigram_window_counterexample :
    ("a😀b" : String).data.length = 3 ∧
    buildTrigramProfileUtf16 ["a😀b"] = some [("a😀", 1), ("😀b", 1)] ∧
    mapFind? [("a😀", (1 : ℝ)), ("😀b", 1)] "a😀b" = none := by
  refine ⟨by decide, ?_, rfl⟩
  have hm : mapIncr [("a😀", (1 : ℝ))] "😀b" = [("a😀", 1), ("😀b", 1)] := by
    rw [mapIncr, if_neg (by decide : ¬ ("😀b" : String) = "a😀"),
      if_neg (by rw [String.lt_iff_toList_lt]; decide : ¬ ("😀b" : String) < "a😀"), mapIncr]
  rw [show buildTrigramProfileUtf16 ["a😀b"]
      = some (mapIncr [("a😀", (1 : ℝ))] "😀b") from rfl, hm]

/-- C5 (amended): for every line of U ≥ 3 UTF-16 code units, the extraction
slides a width-3 window over the code-unit sequence, visiting exactly the
U − 2 windows at unit positions `i = 0 .. U-3` (the window formula below
holds for every unit sequence, short ones yielding none); when extraction
completes without throwing, the weight stored for a key is exactly `1.0`
times its number of occurrences among the re-encoded windows; in particular
the line `"abcd"` yields exactly the two trigrams `"abc"` and `"bcd"`, each
with count 1. -/
theorem trigram_window_utf16_spec :
    (∀ us : List Nat, unitWindows us =
      (List.range (us.length - 2)).map (fun i => (us.drop i).take 3)) ∧
    (∀ us : List Nat, (unitWindows us).length = us.length - 2) ∧
    buildTrigramProfileUtf16 ["abcd"] = some [("abc", 1), ("bcd", 1)] ∧
    (∀ (text : Text) (prof : TrigramProfile) (k : String),
      buildTrigramProfileUtf16 text = some prof →
      mapFind? prof k = if (textKeysUtf16 text).count k = 0 then none
        else some (((textKeysUtf16 text).count k : ℕ) : ℝ)) := by
  refine ⟨unitWindows_windows, ?_, ?_, ?_⟩
  · intro us
    rw [unitWindows_windows, List.length_map, List.length_range]
  · have hm : mapIncr [("abc", (1 : ℝ))] "bcd" = [("abc", 1), ("bcd", 1)] := by
      rw [mapIncr, if_neg (by decide : ¬ ("bcd" : String) = "abc"),
        if_neg (by rw [String.lt_iff_toList_lt]; decide : ¬ ("bcd" : String) < "abc"), mapIncr]
    rw [show buildTrigramProfileUtf16 ["abcd"]
        = some (mapIncr [("abc", (1 : ℝ))] "bcd") from rfl, hm]
  · intro text prof k hp
    rw [buildTrigramProfileUtf16_eq hp, foldl_mapIncr_find _ k profSorted_nil,
      show mapFind? [] k = none from rfl, optCount_none]

/-- C5 witness: the count law applied at the concrete text `["abcd"]` and
key `"abc"`. -/
theorem trigram_window_utf16_spec_witness :
    buildTrigramProfileUtf16 ["abcd"] = some [("abc", 1), ("bcd", 1)] ∧
    mapFind? [("abc", (1 : ℝ)), ("bcd", 1)] "abc" =
      if (textKeysUtf16 ["abcd"]).count "abc" = 0 then none
      else some (((textKeysUtf16 ["abcd"]).count "abc" : ℕ) : ℝ) := by
  have hb := trigram_window_utf16_spec.2.2.1
  exact ⟨hb, trigram_window_utf16_spec.2.2.2 ["abcd"] [("abc", 1), ("bcd", 1)] "abc" hb⟩

end Lequel
